import Mathlib

/-!
Verification of the `echo` CLI (src/main.rs): a shallow embedding of the
`init` subcommand pipeline — source discovery, idempotent file sync,
workflow directory creation, gitignore reconciliation, git hook
installation, AGENT.md creation and final validation — together with
theorems settling the specification claims.

Modelling conventions:
* Filesystem directories that the sync writes into are association lists
  from file name to file content (`Dir`).  `none` for an `Option Dir` or
  `Option String` field means the directory or file is absent on disk.
* A source directory listing (the result of `fs::read_dir`) is a list of
  `SrcEntry`.  The `ext` field is the value of Rust `Path::extension()`
  for that entry, and `copyOk` records whether `fs::copy` of this entry
  would succeed; failure of `fs::copy` is the only per-file I/O failure
  modelled.  OS error text inside messages is omitted.
* `fs::create_dir_all` and the `writeln!` calls are modelled as always
  succeeding; the claims under verification do not depend on their
  failure modes.
-/

/-- A directory that the sync writes into: file name to content. -/
abbrev Dir := List (String × String)

/-- Lookup a file by name in a destination directory (`dest_path.exists()`
plus reading the content). -/
def dirLookup : Dir → String → Option String
  | [], _ => none
  | (m, c) :: d, n => if m = n then some c else dirLookup d n

/-- Overwrite-or-add a file in a destination directory (`fs::copy` to the
destination path). -/
def dirInsert : Dir → String → String → Dir
  | [], n, c => [(n, c)]
  | (m, x) :: d, n, c => if m = n then (n, c) :: d else (m, x) :: dirInsert d n c

/-- One entry of a source directory listing.  `ext` is the value of Rust
`Path::extension()` for the entry, `copyOk` whether `fs::copy` from this
entry succeeds. -/
structure SrcEntry where
  name : String
  ext : Option String
  content : String
  copyOk : Bool
deriving DecidableEq, Repr

/-- Result of one category sync (`copy_rules` / `copy_templates` /
`copy_scripts`): the destination directory contents, the two report lists
accumulated so far, and the error that aborted the loop, if any.  The
report lists survive an abort because the Rust code pushes into the
mutable report before the failing `fs::copy` propagates. -/
structure CopyOut where
  dest : Dir
  copied : List String
  skipped : List String
  err : Option String
deriving DecidableEq, Repr

/-- The per-file loop shared by `copy_rules` (`ext = "mdc"`) and
`copy_templates` (`ext = "md"`) in src/main.rs: for each source entry
whose extension matches, skip when the destination file exists and force
is off, otherwise copy, recording `name` for a fresh copy and
`name ++ " (updated)"` for an overwrite; a failing `fs::copy` aborts the
loop with the error (the `?` operator in the Rust loop). -/
def copyFilesLoop (ext srcDir : String) (force : Bool) :
    List SrcEntry → Dir → List String → List String → CopyOut
  | [], dest, copied, skipped => ⟨dest, copied, skipped, none⟩
  | e :: rest, dest, copied, skipped =>
    if e.ext == some ext then
      if (dirLookup dest e.name).isSome && !force then
        copyFilesLoop ext srcDir force rest dest copied (skipped ++ [e.name])
      else
        if e.copyOk then
          let existed := (dirLookup dest e.name).isSome
          let entryRecord := if existed then e.name ++ " (updated)" else e.name
          copyFilesLoop ext srcDir force rest (dirInsert dest e.name e.content)
            (copied ++ [entryRecord]) skipped
        else
          ⟨dest, copied, skipped, some ("Failed to copy: " ++ srcDir ++ "/" ++ e.name)⟩
    else
      copyFilesLoop ext srcDir force rest dest copied skipped

/-- Lookup a source entry by file name (`scripts_source.join(name).exists()`
and the subsequent read for `fs::copy`). -/
def srcLookup : List SrcEntry → String → Option SrcEntry
  | [], _ => none
  | e :: es, n => if e.name = n then some e else srcLookup es n

/-- The fixed file-name allow-list of `copy_scripts` in src/main.rs. -/
def scriptsAllowList : List String :=
  ["pre-commit-hook", "validate-workflow-state.py", "pre-work-hook"]

/-- The per-name loop of `copy_scripts` in src/main.rs: for each allow-listed
name present in the source directory, apply the same skip-unless-forced
per-file policy; a failing `fs::copy` aborts the loop with the error. -/
def copyScriptsLoop (srcEntries : List SrcEntry) (srcDir : String) (force : Bool) :
    List String → Dir → List String → List String → CopyOut
  | [], dest, copied, skipped => ⟨dest, copied, skipped, none⟩
  | n :: ns, dest, copied, skipped =>
    match srcLookup srcEntries n with
    | none => copyScriptsLoop srcEntries srcDir force ns dest copied skipped
    | some e =>
      if (dirLookup dest n).isSome && !force then
        copyScriptsLoop srcEntries srcDir force ns dest copied (skipped ++ [n])
      else
        if e.copyOk then
          let existed := (dirLookup dest n).isSome
          let entryRecord := if existed then n ++ " (updated)" else n
          copyScriptsLoop srcEntries srcDir force ns (dirInsert dest n e.content)
            (copied ++ [entryRecord]) skipped
        else
          ⟨dest, copied, skipped, some ("Failed to copy: " ++ srcDir ++ "/" ++ n)⟩

example :
    (copyFilesLoop "mdc" "s" false [⟨"a.mdc", some "mdc", "x", true⟩] [] [] []).copied
      = ["a.mdc"] := by decide

example :
    (copyFilesLoop "mdc" "s" true [⟨"a.mdc", some "mdc", "x", true⟩] [("a.mdc", "old")] [] []).copied
      = ["a.mdc (updated)"] := by decide

/-- The mutable report accumulated by `init_command` (struct `InitReport`
in src/main.rs). -/
structure InitReport where
  copied_rules : List String
  skipped_rules : List String
  copied_templates : List String
  skipped_templates : List String
  created_dirs : List String
  copied_scripts : List String
  skipped_scripts : List String
  errors : List String
  warnings : List String
  agent_created : Bool
  gitignore_action : Option String
  hook_action : Option String
  source_used : Option String
deriving DecidableEq, Repr

/-- The report `init_command` starts from. -/
def emptyReport : InitReport :=
  ⟨[], [], [], [], [], [], [], [], [], false, none, none, none⟩

/-- The state of the primary configuration file at
`home/.flowmates/config.json`, abstracting the chain
`exists()` / `fs::read_to_string` / `serde_json::from_str` /
`get("repo_path").and_then(as_str)` in `discover_source_location`. -/
inductive FlowmatesConfig where
  | absent
  | unreadable
  | unparseable
  | noRepoPath
  | repoPath (p : String)
deriving DecidableEq, Repr

/-- The read-only source-side filesystem: which directories exist, the
listing `fs::read_dir` returns for each readable directory (a directory
present in `dirs` but missing from `listings` is unreadable), and plain
files readable by path (used for the AGENT template). -/
structure SrcFs where
  dirs : List String
  listings : List (String × List SrcEntry)
  files : List (String × String)
deriving DecidableEq, Repr

/-- Listing lookup: the result of `fs::read_dir` on a source directory. -/
def listingLookup : List (String × List SrcEntry) → String → Option (List SrcEntry)
  | [], _ => none
  | (p, es) :: rest, q => if p = q then some es else listingLookup rest q

/-- Embedding of `validate_flowmates_repo` in src/main.rs: the repo path exists, its
`rules` subdirectory exists, and reading that subdirectory finds at least
one entry with extension `mdc`. -/
def validate_flowmates_repo (fs : SrcFs) (repoPath : String) : Bool :=
  if !(fs.dirs.contains repoPath) then false
  else if !(fs.dirs.contains (repoPath ++ "/rules")) then false
  else
    match listingLookup fs.listings (repoPath ++ "/rules") with
    | some es => es.any (fun e => e.ext == some "mdc")
    | none => false

/-- The resolved source, mirroring struct `SourceInfo` in src/main.rs. -/
structure SourceInfo where
  base_path : String
  rules_path : String
  templates_path : Option String
  scripts_path : Option String
  is_flowmates : Bool
deriving DecidableEq, Repr

/-- The two-tier templates resolution shared by both source kinds:
`base/issues/shared/templates` if it exists, else
`base/docs/issues/templates` if it exists, else none. -/
def resolveTemplates (base : String) (fs : SrcFs) : Option String :=
  if fs.dirs.contains (base ++ "/issues/shared/templates") then
    some (base ++ "/issues/shared/templates")
  else if fs.dirs.contains (base ++ "/docs/issues/templates") then
    some (base ++ "/docs/issues/templates")
  else none

/-- The fallback block at the end of `discover_source_location`: use
`home/.cursor/rules` if it exists (scripts never available), else no
source at all. -/
def cursorFallback (home : String) (fs : SrcFs) (r : InitReport) :
    InitReport × Option SourceInfo :=
  if fs.dirs.contains (home ++ "/.cursor/rules") then
    ({ r with source_used := some "cursor" },
     some { base_path := home ++ "/.cursor",
            rules_path := home ++ "/.cursor/rules",
            templates_path := resolveTemplates (home ++ "/.cursor") fs,
            scripts_path := none,
            is_flowmates := false })
  else
    (r, none)

/-- Embedding of `discover_source_location` in src/main.rs.  The primary configuration
is tried first; only the absent case and the failed-validation case push
a warning, the unreadable, unparseable and missing-field cases fall
through to the cursor fallback silently. -/
def discover_source_location (home : String) (cfg : FlowmatesConfig)
    (fs : SrcFs) (r : InitReport) : InitReport × Option SourceInfo :=
  match cfg with
  | .repoPath p =>
    if validate_flowmates_repo fs p then
      ({ r with source_used := some "flowmates" },
       some { base_path := p,
              rules_path := p ++ "/rules",
              templates_path := resolveTemplates p fs,
              scripts_path :=
                if fs.dirs.contains (p ++ "/scripts") then some (p ++ "/scripts") else none,
              is_flowmates := true })
    else
      cursorFallback home fs
        { r with warnings := r.warnings ++
            ["Flowmates repository path invalid: " ++ p ++ ". Using ~/.cursor/ as fallback."] }
  | .absent =>
      cursorFallback home fs
        { r with warnings := r.warnings ++
            ["Flowmates repository not configured. Using ~/.cursor/ as fallback."] }
  | .unreadable => cursorFallback home fs r
  | .unparseable => cursorFallback home fs r
  | .noRepoPath => cursorFallback home fs r

/-- ASCII lowercasing of one character, as Rust lowercasing behaves on the
ASCII comparands used by the gitignore matcher. -/
def lowerChar (c : Char) : Char :=
  if 'A' ≤ c && c ≤ 'Z' then Char.ofNat (c.toNat + 32) else c

/-- ASCII lowercasing of a character list. -/
def lowerChars (l : List Char) : List Char := l.map lowerChar

/-- Whitespace as trimmed by Rust `str::trim` (the ASCII whitespace
characters; exotic Unicode space characters are not modelled). -/
def wsChar (c : Char) : Bool :=
  c == ' ' || c == '\t' || c == '\n' || c == '\r' || c == '\x0b' || c == '\x0c'

/-- Rust `str::trim` on a character list. -/
def trimChars (l : List Char) : List Char :=
  ((l.dropWhile (wsChar ·)).reverse.dropWhile (wsChar ·)).reverse

/-- Whether the second list starts with the first (Rust `str::starts_with`). -/
def listStarts : List Char → List Char → Bool
  | [], _ => true
  | _ :: _, [] => false
  | p :: ps, c :: cs => p == c && listStarts ps cs

/-- Whether the second list ends with the first (Rust `str::ends_with`). -/
def listEndsWith (pat l : List Char) : Bool :=
  listStarts pat.reverse l.reverse

/-- Split a character list at every newline; always returns at least one
piece, with a trailing newline producing a final empty piece. -/
def splitNlAux : List Char → List Char → List (List Char)
  | [], acc => [acc.reverse]
  | c :: cs, acc =>
    if c == '\n' then acc.reverse :: splitNlAux cs [] else splitNlAux cs (c :: acc)

/-- Strip one trailing carriage return, as Rust `str::lines` does for a
line terminated by a CRLF sequence. -/
def dropCRChars (l : List Char) : List Char :=
  match l.getLast? with
  | some '\r' => l.dropLast
  | _ => l

/-- Rust `str::lines`: split at every newline, strip a trailing carriage
return from every newline-terminated piece, and do not yield a final
empty piece after a trailing newline. -/
def rustLines (s : String) : List (List Char) :=
  let parts := splitNlAux s.data []
  let front := parts.dropLast.map dropCRChars
  match parts.getLast? with
  | some [] => front
  | some l => front ++ [l]
  | none => front

/-- Rust `str::eq_ignore_ascii_case` for the ASCII comparands used here. -/
def eqIgnoreAscii (a b : List Char) : Bool :=
  lowerChars a == lowerChars b

/-- The line predicate of `ensure_cursor_in_gitignore` in src/main.rs:
trim the line, never match blank or comment lines, otherwise match the
entry exactly, the entry with a trailing separator, or any line whose
lowercase form starts with the entry. -/
def cursorLineMatch (line : List Char) : Bool :=
  let trimmed := trimChars line
  if trimmed.isEmpty || listStarts "#".data trimmed then false
  else
    eqIgnoreAscii trimmed ".cursor".data || eqIgnoreAscii trimmed ".cursor/".data
      || listStarts ".cursor".data (lowerChars trimmed)

/-- The content written when `.gitignore` is created from scratch. -/
def gitignoreInitial : String := "# Cursor agent state and cache\n.cursor/\n"

/-- The text appended when the entry is added to an existing `.gitignore`. -/
def gitignoreAppendix : String := "\n# Cursor agent state and cache\n.cursor/\n"

/-- Embedding of `ensure_cursor_in_gitignore` in src/main.rs, over the optional content
of `.gitignore`: returns the new content and the recorded action. -/
def ensure_cursor_in_gitignore (g : Option String) : Option String × String :=
  match g with
  | none => (some gitignoreInitial, "created")
  | some content =>
    if (rustLines content).any cursorLineMatch then
      (some content, "skipped")
    else
      (some (content ++ gitignoreAppendix), "added")

example : ensure_cursor_in_gitignore (some "node_modules/\n.CURSOR/\n")
    = (some "node_modules/\n.CURSOR/\n", "skipped") := by decide

example : ensure_cursor_in_gitignore (some "# .cursor\n")
    = (some ("# .cursor\n" ++ gitignoreAppendix), "added") := by decide

/-- Result of `install_git_hooks`: the new hook file state, the recorded
action (left unset when the copy fails, as the Rust function returns
before assigning it), and the appended errors and warnings. -/
structure HookResult where
  preCommit : Option String
  preCommitExec : Bool
  action : Option String
  errs : List String
  warns : List String
deriving DecidableEq, Repr

/-- Embedding of `install_git_hooks` in src/main.rs.  The template is
`scripts/pre-commit-hook` inside the working repository, the destination
`.git/hooks/pre-commit`.  `copyOk` and `chmodOk` model success of
`fs::copy` and `fs::set_permissions`; on a chmod failure the executable
bit of the freshly copied file is left unmodelled (kept as it was). -/
def install_git_hooks (force : Bool) (scriptsDir : Option Dir)
    (gitHooksDir : Bool) (preCommit : Option String) (preCommitExec : Bool)
    (copyOk chmodOk : Bool) : HookResult :=
  match dirLookup (scriptsDir.getD []) "pre-commit-hook" with
  | none => ⟨preCommit, preCommitExec, some "not_found", [], []⟩
  | some tpl =>
    if !gitHooksDir then
      ⟨preCommit, preCommitExec, some "not_git", [], []⟩
    else
      let hookExisted := preCommit.isSome
      if hookExisted && !force then
        ⟨preCommit, preCommitExec, some "skipped", [], []⟩
      else if !copyOk then
        ⟨preCommit, preCommitExec, none, ["Failed to copy git hook"], []⟩
      else
        ⟨some tpl, if chmodOk then true else preCommitExec,
         some (if hookExisted then "updated" else "installed"),
         [], if chmodOk then [] else ["Failed to make hook executable"]⟩

/-- Split a character list at every dot. -/
def splitDotAux : List Char → List Char → List (List Char)
  | [], acc => [acc.reverse]
  | c :: cs, acc =>
    if c == '.' then acc.reverse :: splitDotAux cs [] else splitDotAux cs (c :: acc)

/-- Rust `Path::extension()` on a plain file name: the portion after the
last dot; none when there is no dot or when the only dot is the leading
dot of a hidden file. -/
def rustExtension (name : String) : Option String :=
  match splitDotAux name.data [] with
  | [] => none
  | [_] => none
  | [] :: [_] => none
  | parts => (parts.getLast?).map (fun l => String.mk l)

example : rustExtension "a.mdc" = some "mdc" := by decide
example : rustExtension "README" = none := by decide
example : rustExtension ".hidden" = none := by decide
example : rustExtension ".hidden.mdc" = some "mdc" := by decide

/-- The mutable state of the working repository that the init run touches.
`none` means the directory or file is absent. -/
structure RepoState where
  cursorRules : Option Dir
  projDirs : List String
  sharedTemplates : Option Dir
  scriptsDir : Option Dir
  gitignore : Option String
  gitHooksDir : Bool
  preCommit : Option String
  preCommitExec : Bool
  agentMd : Option String
deriving DecidableEq, Repr

/-- Embedding of `copy_rules` in src/main.rs: create the destination directory, read the
source directory (failure is the category error) and run the per-file
loop with extension `mdc`. -/
def copy_rules (fs : SrcFs) (srcDir : String) (dest : Option Dir) (force : Bool) : CopyOut :=
  let d := dest.getD []
  match listingLookup fs.listings srcDir with
  | none => ⟨d, [], [], some ("Failed to read directory: " ++ srcDir)⟩
  | some es => copyFilesLoop "mdc" srcDir force es d [] []

/-- Embedding of `copy_templates` in src/main.rs: identical to `copy_rules` but with
extension `md` and the templates report lists. -/
def copy_templates (fs : SrcFs) (srcDir : String) (dest : Option Dir) (force : Bool) : CopyOut :=
  let d := dest.getD []
  match listingLookup fs.listings srcDir with
  | none => ⟨d, [], [], some ("Failed to read directory: " ++ srcDir)⟩
  | some es => copyFilesLoop "md" srcDir force es d [] []

/-- Embedding of `copy_scripts` in src/main.rs: create `scripts/`, then try each name of
the fixed allow-list; a source file is visible iff it occurs in the
listing of the source scripts directory. -/
def copy_scripts (fs : SrcFs) (srcDir : String) (dest : Option Dir) (force : Bool) : CopyOut :=
  let d := dest.getD []
  let es := (listingLookup fs.listings srcDir).getD []
  copyScriptsLoop es srcDir force scriptsAllowList d [] []

/-- The four per-project workflow stage directories. -/
def projDirPaths (pn : String) : List String :=
  ["issues/" ++ pn ++ "/proposal", "issues/" ++ pn ++ "/todo",
   "issues/" ++ pn ++ "/in_progress", "issues/" ++ pn ++ "/done"]

/-- Embedding of `create_issue_workflow_structure` in src/main.rs: ensure the four
project stage directories and the shared templates directory exist,
recording only the newly created ones, in the fixed array order. -/
def create_issue_workflow_structure (pn : String) (projDirs : List String)
    (sharedTemplates : Option Dir) : List String × Option Dir × List String :=
  let step := fun (acc : List String × List String) (p : String) =>
    if acc.1.contains p then acc else (acc.1 ++ [p], acc.2 ++ [p])
  let four := (projDirPaths pn).foldl step (projDirs, [])
  match sharedTemplates with
  | some d => (four.1, some d, four.2)
  | none => (four.1, some [], four.2 ++ ["issues/shared/templates"])

/-- Lookup a readable file by path on the source side. -/
def fileLookup : List (String × String) → String → Option String
  | [], _ => none
  | (p, c) :: rest, q => if p = q then some c else fileLookup rest q

/-- Embedding of `create_agent_md` in src/main.rs, combined with the step 8 guard logic
of `init_command`: returns the new AGENT.md state, whether it was
created, and the appended warnings. -/
def agentStep (skip_agent with_agent force : Bool) (home : String) (fs : SrcFs)
    (src : SourceInfo) (pn : String) (agentMd : Option String) :
    Option String × Bool × List String :=
  if skip_agent then (agentMd, false, [])
  else
    let tplPath :=
      if src.is_flowmates then src.base_path ++ "/templates/AGENT_REPO.template.md"
      else home ++ "/.cursor/templates/AGENT_REPO.template.md"
    if with_agent || agentMd.isNone then
      match fileLookup fs.files tplPath with
      | some tpl =>
        if agentMd.isSome && !(force || with_agent) then (agentMd, false, [])
        else
          (some (tpl.replace "\x7b\x7bPROJECT_NAME\x7d\x7d" pn), true, [])
      | none =>
        if with_agent then
          (agentMd, false, ["AGENT template not found at: " ++ tplPath])
        else (agentMd, false, [])
    else (agentMd, false, [])

/-- Embedding of `validate_setup` in src/main.rs: re-check the final on-disk state; the
returned pair is the appended errors and warnings, in source order. -/
def validate_setup (pn : String) (st : RepoState) : List String × List String :=
  let rulesPart : List String × List String :=
    match st.cursorRules with
    | none => (["Rules directory not found: .cursor/rules/"], [])
    | some d =>
      if (d.filter (fun f => rustExtension f.1 == some "mdc")).length == 0 then
        ([], ["No .mdc rule files found in .cursor/rules/"])
      else ([], [])
  let missing := (projDirPaths pn).filter (fun p => !(st.projDirs.contains p))
  let dirErrs := missing.map (fun p => "Required directory missing: " ++ p) ++
    (if st.sharedTemplates.isSome then []
     else ["Required directory missing: issues/shared/templates"])
  let tplWarns : List String :=
    match st.sharedTemplates with
    | none => []
    | some d =>
      if (d.filter (fun f => rustExtension f.1 == some "md")).length == 0 then
        ["No template files found in issues/shared/templates/"]
      else []
  (rulesPart.1 ++ dirErrs, rulesPart.2 ++ tplWarns)

/-- Step 2 of `init_command`: copy rules into `.cursor/rules/`; a category
error becomes a hard error prefixed by the step context. -/
def stepRules (fs : SrcFs) (src : SourceInfo) (force : Bool)
    (p : RepoState × InitReport) : RepoState × InitReport :=
  let out := copy_rules fs src.rules_path p.1.cursorRules force
  ({ p.1 with cursorRules := some out.dest },
   { p.2 with copied_rules := out.copied, skipped_rules := out.skipped,
              errors := p.2.errors ++
                (match out.err with
                 | some m => ["Error copying rules: " ++ m]
                 | none => []) })

/-- Step 3 of `init_command`: ensure the workflow directories exist. -/
def stepWorkflow (pn : String) (p : RepoState × InitReport) : RepoState × InitReport :=
  let ws := create_issue_workflow_structure pn p.1.projDirs p.1.sharedTemplates
  ({ p.1 with projDirs := ws.1, sharedTemplates := ws.2.1 },
   { p.2 with created_dirs := ws.2.2 })

/-- Step 4 of `init_command`: copy issue templates when the source has a
templates directory; a category error becomes a warning. -/
def stepTemplates (fs : SrcFs) (src : SourceInfo) (force : Bool)
    (p : RepoState × InitReport) : RepoState × InitReport :=
  match src.templates_path with
  | none => p
  | some tp =>
    let out := copy_templates fs tp p.1.sharedTemplates force
    ({ p.1 with sharedTemplates := some out.dest },
     { p.2 with copied_templates := out.copied, skipped_templates := out.skipped,
                warnings := p.2.warnings ++
                  (match out.err with
                   | some m => ["Error copying templates: " ++ m]
                   | none => []) })

/-- Step 5 of `init_command`: copy scripts when the source has a scripts
directory; a category error becomes a warning. -/
def stepScripts (fs : SrcFs) (src : SourceInfo) (force : Bool)
    (p : RepoState × InitReport) : RepoState × InitReport :=
  match src.scripts_path with
  | none => p
  | some sp =>
    let out := copy_scripts fs sp p.1.scriptsDir force
    ({ p.1 with scriptsDir := some out.dest },
     { p.2 with copied_scripts := out.copied, skipped_scripts := out.skipped,
                warnings := p.2.warnings ++
                  (match out.err with
                   | some m => ["Error copying scripts: " ++ m]
                   | none => []) })

/-- Step 6 of `init_command`: reconcile `.gitignore`. -/
def stepGitignore (p : RepoState × InitReport) : RepoState × InitReport :=
  let out := ensure_cursor_in_gitignore p.1.gitignore
  ({ p.1 with gitignore := out.1 }, { p.2 with gitignore_action := some out.2 })

/-- Step 7 of `init_command`: install the git pre-commit hook, unless the
skip flag is set, in which case the action is recorded as skipped. -/
def stepHooks (force skip_hooks copyOk chmodOk : Bool)
    (p : RepoState × InitReport) : RepoState × InitReport :=
  if skip_hooks then
    (p.1, { p.2 with hook_action := some "skipped" })
  else
    let hr := install_git_hooks force p.1.scriptsDir p.1.gitHooksDir p.1.preCommit
      p.1.preCommitExec copyOk chmodOk
    ({ p.1 with preCommit := hr.preCommit, preCommitExec := hr.preCommitExec },
     { p.2 with hook_action := hr.action,
                errors := p.2.errors ++ hr.errs,
                warnings := p.2.warnings ++ hr.warns })

/-- Step 8 of `init_command`: optionally create AGENT.md. -/
def stepAgent (skip_agent with_agent force : Bool) (home : String) (fs : SrcFs)
    (src : SourceInfo) (pn : String) (p : RepoState × InitReport) :
    RepoState × InitReport :=
  let out := agentStep skip_agent with_agent force home fs src pn p.1.agentMd
  ({ p.1 with agentMd := out.1 },
   { p.2 with agent_created := out.2.1, warnings := p.2.warnings ++ out.2.2 })

/-- Step 9 of `init_command`: re-validate the final state. -/
def stepValidate (pn : String) (p : RepoState × InitReport) : RepoState × InitReport :=
  let out := validate_setup pn p.1
  (p.1, { p.2 with errors := p.2.errors ++ out.1, warnings := p.2.warnings ++ out.2 })

/-- Steps 2 through 10 of `init_command`, run once a source has been
discovered.  The final boolean is the success of the run: true exactly
when no hard error was accumulated. -/
def initAfterSource (force skip_agent with_agent skip_hooks : Bool)
    (home : String) (fs : SrcFs) (pn : String) (src : SourceInfo)
    (copyOk chmodOk : Bool) (st : RepoState) (r : InitReport) :
    RepoState × InitReport × Bool :=
  let p := stepRules fs src force (st, r)
  let p := stepWorkflow pn p
  let p := stepTemplates fs src force p
  let p := stepScripts fs src force p
  let p := stepGitignore p
  let p := stepHooks force skip_hooks copyOk chmodOk p
  let p := stepAgent skip_agent with_agent force home fs src pn p
  let p := stepValidate pn p
  (p.1, p.2, p.2.errors.isEmpty)

/-- Embedding of `init_command` in src/main.rs over the modelled world: discover a
source; with no source the run aborts fatally (exit status false) before
any mutation of the repository state; otherwise run the pipeline. -/
def init_command (force skip_agent with_agent skip_hooks : Bool)
    (home : String) (cfg : FlowmatesConfig) (fs : SrcFs) (pn : String)
    (copyOk chmodOk : Bool) (st : RepoState) : RepoState × InitReport × Bool :=
  let dres := discover_source_location home cfg fs emptyReport
  match dres.2 with
  | none => (st, dres.1, false)
  | some src =>
    initAfterSource force skip_agent with_agent skip_hooks home fs pn src
      copyOk chmodOk st dres.1


/-! ### Lemmas about destination directories -/

theorem dirLookup_insert_self (d : Dir) (n c : String) :
    dirLookup (dirInsert d n c) n = some c := by
  induction d with
  | nil => simp [dirInsert, dirLookup]
  | cons p d ih =>
    by_cases h : p.1 = n
    · simp [dirInsert, dirLookup, h]
    · simp [dirInsert, dirLookup, h, ih]

theorem dirLookup_insert_ne (d : Dir) (m n c : String) (h : m ≠ n) :
    dirLookup (dirInsert d m c) n = dirLookup d n := by
  induction d with
  | nil => simp [dirInsert, dirLookup, h]
  | cons p d ih =>
    by_cases hp : p.1 = m
    · simp [dirInsert, dirLookup, hp, h]
    · by_cases hq : p.1 = n
      · simp [dirInsert, dirLookup, hp, hq, Ne.symm h]
      · simp [dirInsert, dirLookup, hp, hq, ih]

theorem dirLookup_insert_isSome (d : Dir) (n c x : String)
    (h : (dirLookup d x).isSome = true) :
    (dirLookup (dirInsert d n c) x).isSome = true := by
  by_cases hx : n = x
  · subst hx; simp [dirLookup_insert_self]
  · rw [dirLookup_insert_ne d n x c hx]; exact h

/-! ### Lemmas about the per-file sync loops -/

theorem copyFilesLoop_grow (ext srcDir : String) (force : Bool) :
    ∀ (entries : List SrcEntry) (d : Dir) (c s : List String),
      ∃ tc ts, (copyFilesLoop ext srcDir force entries d c s).copied = c ++ tc ∧
        (copyFilesLoop ext srcDir force entries d c s).skipped = s ++ ts := by
  intro entries
  induction entries with
  | nil =>
    intro d c s
    exact ⟨[], [], by simp [copyFilesLoop], by simp [copyFilesLoop]⟩
  | cons e rest ih =>
    intro d c s
    by_cases hfe : (e.ext == some ext) = true
    · by_cases hcond : ((dirLookup d e.name).isSome && !force) = true
      · obtain ⟨tc, ts, h1, h2⟩ := ih d c (s ++ [e.name])
        refine ⟨tc, [e.name] ++ ts, ?_, ?_⟩
        · simpa [copyFilesLoop, hfe, hcond] using h1
        · rw [show (copyFilesLoop ext srcDir force (e :: rest) d c s).skipped
              = (copyFilesLoop ext srcDir force rest d c (s ++ [e.name])).skipped by
            simp [copyFilesLoop, hfe, hcond]]
          rw [h2, List.append_assoc]
      · by_cases hok : e.copyOk = true
        · set r := if (dirLookup d e.name).isSome then e.name ++ " (updated)" else e.name with hr
          obtain ⟨tc, ts, h1, h2⟩ := ih (dirInsert d e.name e.content) (c ++ [r]) s
          refine ⟨[r] ++ tc, ts, ?_, ?_⟩
          · rw [show (copyFilesLoop ext srcDir force (e :: rest) d c s).copied
                = (copyFilesLoop ext srcDir force rest (dirInsert d e.name e.content) (c ++ [r]) s).copied by
              simp [copyFilesLoop, hfe, hcond, hok, hr]]
            rw [h1, List.append_assoc]
          · simpa [copyFilesLoop, hfe, hcond, hok, hr] using h2
        · refine ⟨[], [], ?_, ?_⟩ <;>
            simp [copyFilesLoop, hfe, hcond, hok]
    · obtain ⟨tc, ts, h1, h2⟩ := ih d c s
      exact ⟨tc, ts, by simpa [copyFilesLoop, hfe] using h1,
        by simpa [copyFilesLoop, hfe] using h2⟩

theorem copyFilesLoop_frame (ext srcDir : String) (force : Bool) (n : String) :
    ∀ (entries : List SrcEntry) (d : Dir) (c s : List String),
      (∀ e ∈ entries, e.ext = some ext → e.name ≠ n) →
      dirLookup (copyFilesLoop ext srcDir force entries d c s).dest n = dirLookup d n := by
  intro entries
  induction entries with
  | nil => intro d c s _; simp [copyFilesLoop]
  | cons e rest ih =>
    intro d c s hmatch
    have hrest : ∀ g ∈ rest, g.ext = some ext → g.name ≠ n :=
      fun g hg => hmatch g (List.mem_cons_of_mem e hg)
    by_cases hfe : (e.ext == some ext) = true
    · have hne : e.name ≠ n := hmatch e (List.mem_cons_self e rest) (by
        simpa using hfe)
      by_cases hcond : ((dirLookup d e.name).isSome && !force) = true
      · rw [show copyFilesLoop ext srcDir force (e :: rest) d c s
            = copyFilesLoop ext srcDir force rest d c (s ++ [e.name]) by
          simp [copyFilesLoop, hfe, hcond]]
        exact ih d c (s ++ [e.name]) hrest
      · by_cases hok : e.copyOk = true
        · rw [show copyFilesLoop ext srcDir force (e :: rest) d c s
              = copyFilesLoop ext srcDir force rest (dirInsert d e.name e.content)
                  (c ++ [if (dirLookup d e.name).isSome then e.name ++ " (updated)" else e.name]) s by
            simp [copyFilesLoop, hfe, hcond, hok]]
          rw [ih (dirInsert d e.name e.content) _ s hrest]
          exact dirLookup_insert_ne d e.name n e.content hne
        · simp [copyFilesLoop, hfe, hcond, hok]
    · rw [show copyFilesLoop ext srcDir force (e :: rest) d c s
          = copyFilesLoop ext srcDir force rest d c s by
        simp [copyFilesLoop, hfe]]
      exact ih d c s hrest

theorem copyFilesLoop_keeps (ext srcDir : String) (force : Bool) (n : String) :
    ∀ (entries : List SrcEntry) (d : Dir) (c s : List String),
      (dirLookup d n).isSome = true →
      (dirLookup (copyFilesLoop ext srcDir force entries d c s).dest n).isSome = true := by
  intro entries
  induction entries with
  | nil => intro d c s h; simpa [copyFilesLoop] using h
  | cons e rest ih =>
    intro d c s h
    by_cases hfe : (e.ext == some ext) = true
    · by_cases hcond : ((dirLookup d e.name).isSome && !force) = true
      · rw [show copyFilesLoop ext srcDir force (e :: rest) d c s
            = copyFilesLoop ext srcDir force rest d c (s ++ [e.name]) by
          simp [copyFilesLoop, hfe, hcond]]
        exact ih d c (s ++ [e.name]) h
      · by_cases hok : e.copyOk = true
        · rw [show copyFilesLoop ext srcDir force (e :: rest) d c s
              = copyFilesLoop ext srcDir force rest (dirInsert d e.name e.content)
                  (c ++ [if (dirLookup d e.name).isSome then e.name ++ " (updated)" else e.name]) s by
            simp [copyFilesLoop, hfe, hcond, hok]]
          exact ih _ _ s (dirLookup_insert_isSome d e.name e.content n h)
        · simpa [copyFilesLoop, hfe, hcond, hok] using h
    · rw [show copyFilesLoop ext srcDir force (e :: rest) d c s
          = copyFilesLoop ext srcDir force rest d c s by
        simp [copyFilesLoop, hfe]]
      exact ih d c s h

theorem copyFilesLoop_ok (ext srcDir : String) (force : Bool) :
    ∀ (entries : List SrcEntry) (d : Dir) (c s : List String),
      (∀ e ∈ entries, e.copyOk = true) →
      (copyFilesLoop ext srcDir force entries d c s).err = none := by
  intro entries
  induction entries with
  | nil => intro d c s _; simp [copyFilesLoop]
  | cons e rest ih =>
    intro d c s hok
    have hrest : ∀ g ∈ rest, g.copyOk = true :=
      fun g hg => hok g (List.mem_cons_of_mem e hg)
    have he : e.copyOk = true := hok e (List.mem_cons_self e rest)
    by_cases hfe : (e.ext == some ext) = true
    · by_cases hcond : ((dirLookup d e.name).isSome && !force) = true
      · rw [show copyFilesLoop ext srcDir force (e :: rest) d c s
            = copyFilesLoop ext srcDir force rest d c (s ++ [e.name]) by
          simp [copyFilesLoop, hfe, hcond]]
        exact ih d c (s ++ [e.name]) hrest
      · rw [show copyFilesLoop ext srcDir force (e :: rest) d c s
            = copyFilesLoop ext srcDir force rest (dirInsert d e.name e.content)
                (c ++ [if (dirLookup d e.name).isSome then e.name ++ " (updated)" else e.name]) s by
          simp [copyFilesLoop, hfe, hcond, he]]
        exact ih _ _ s hrest
    · rw [show copyFilesLoop ext srcDir force (e :: rest) d c s
          = copyFilesLoop ext srcDir force rest d c s by
        simp [copyFilesLoop, hfe]]
      exact ih d c s hrest

theorem copyScriptsLoop_frame (srcEntries : List SrcEntry) (srcDir : String)
    (force : Bool) (n : String) :
    ∀ (names : List String) (d : Dir) (c s : List String), n ∉ names →
      dirLookup (copyScriptsLoop srcEntries srcDir force names d c s).dest n = dirLookup d n := by
  intro names
  induction names with
  | nil => intro d c s _; simp [copyScriptsLoop]
  | cons m ns ih =>
    intro d c s hn
    have hne : m ≠ n := fun hEq => hn (hEq ▸ List.mem_cons_self m ns)
    have hn' : n ∉ ns := fun hmem => hn (List.mem_cons_of_mem m hmem)
    cases hsrc : srcLookup srcEntries m with
    | none =>
      rw [show copyScriptsLoop srcEntries srcDir force (m :: ns) d c s
          = copyScriptsLoop srcEntries srcDir force ns d c s by
        simp [copyScriptsLoop, hsrc]]
      exact ih d c s hn'
    | some e =>
      by_cases hcond : ((dirLookup d m).isSome && !force) = true
      · rw [show copyScriptsLoop srcEntries srcDir force (m :: ns) d c s
            = copyScriptsLoop srcEntries srcDir force ns d c (s ++ [m]) by
          simp [copyScriptsLoop, hsrc, hcond]]
        exact ih d c (s ++ [m]) hn'
      · by_cases hok : e.copyOk = true
        · rw [show copyScriptsLoop srcEntries srcDir force (m :: ns) d c s
              = copyScriptsLoop srcEntries srcDir force ns (dirInsert d m e.content)
                  (c ++ [if (dirLookup d m).isSome then m ++ " (updated)" else m]) s by
            simp [copyScriptsLoop, hsrc, hcond, hok]]
          rw [ih _ _ s hn']
          exact dirLookup_insert_ne d m n e.content hne
        · simp [copyScriptsLoop, hsrc, hcond, hok]
    
theorem copyScriptsLoop_keeps (srcEntries : List SrcEntry) (srcDir : String)
    (force : Bool) (n : String) :
    ∀ (names : List String) (d : Dir) (c s : List String),
      (dirLookup d n).isSome = true →
      (dirLookup (copyScriptsLoop srcEntries srcDir force names d c s).dest n).isSome = true := by
  intro names
  induction names with
  | nil => intro d c s h; simpa [copyScriptsLoop] using h
  | cons m ns ih =>
    intro d c s h
    cases hsrc : srcLookup srcEntries m with
    | none =>
      rw [show copyScriptsLoop srcEntries srcDir force (m :: ns) d c s
          = copyScriptsLoop srcEntries srcDir force ns d c s by
        simp [copyScriptsLoop, hsrc]]
      exact ih d c s h
    | some e =>
      by_cases hcond : ((dirLookup d m).isSome && !force) = true
      · rw [show copyScriptsLoop srcEntries srcDir force (m :: ns) d c s
            = copyScriptsLoop srcEntries srcDir force ns d c (s ++ [m]) by
          simp [copyScriptsLoop, hsrc, hcond]]
        exact ih d c (s ++ [m]) h
      · by_cases hok : e.copyOk = true
        · rw [show copyScriptsLoop srcEntries srcDir force (m :: ns) d c s
              = copyScriptsLoop srcEntries srcDir force ns (dirInsert d m e.content)
                  (c ++ [if (dirLookup d m).isSome then m ++ " (updated)" else m]) s by
            simp [copyScriptsLoop, hsrc, hcond, hok]]
          exact ih _ _ s (dirLookup_insert_isSome d m e.content n h)
        · simpa [copyScriptsLoop, hsrc, hcond, hok] using h

theorem copyFilesLoop_policy (ext srcDir : String) (force : Bool) :
    ∀ (entries : List SrcEntry) (d : Dir) (c s : List String),
      (entries.map SrcEntry.name).Nodup →
      (∀ g ∈ entries, g.copyOk = true) →
      ∀ e ∈ entries, e.ext = some ext →
      (dirLookup d e.name = none →
        e.name ∈ (copyFilesLoop ext srcDir force entries d c s).copied ∧
        dirLookup (copyFilesLoop ext srcDir force entries d c s).dest e.name = some e.content) ∧
      (∀ v, dirLookup d e.name = some v → force = false →
        e.name ∈ (copyFilesLoop ext srcDir force entries d c s).skipped ∧
        dirLookup (copyFilesLoop ext srcDir force entries d c s).dest e.name = some v) ∧
      (∀ v, dirLookup d e.name = some v → force = true →
        (e.name ++ " (updated)") ∈ (copyFilesLoop ext srcDir force entries d c s).copied ∧
        dirLookup (copyFilesLoop ext srcDir force entries d c s).dest e.name = some e.content) := by
  intro entries
  induction entries with
  | nil => intro d c s _ _ e he; exact absurd he (List.not_mem_nil e)
  | cons f rest ih =>
    intro d c s hnd hok e he hext
    have hfnotin : f.name ∉ rest.map SrcEntry.name := (List.nodup_cons.mp hnd).1
    have hnd' : (rest.map SrcEntry.name).Nodup := (List.nodup_cons.mp hnd).2
    have hok' : ∀ g ∈ rest, g.copyOk = true :=
      fun g hg => hok g (List.mem_cons_of_mem f hg)
    have hfok : f.copyOk = true := hok f (List.mem_cons_self f rest)
    have hfrest : ∀ g ∈ rest, g.ext = some ext → g.name ≠ f.name := by
      intro g hg _ hEq
      exact hfnotin (hEq ▸ List.mem_map_of_mem SrcEntry.name hg)
    rcases List.mem_cons.mp he with rfl | he'
    · -- the entry under scrutiny is processed first
      have hfe : (e.ext == some ext) = true := by simp [hext]
      cases hd : dirLookup d e.name with
      | none =>
        have hcond : ((dirLookup d e.name).isSome && !force) = false := by
          simp [hd]
        rw [show copyFilesLoop ext srcDir force (e :: rest) d c s
            = copyFilesLoop ext srcDir force rest (dirInsert d e.name e.content)
                (c ++ [e.name]) s by
          simp [copyFilesLoop, hfe, hcond, hfok, hd]]
        refine ⟨fun _ => ⟨?_, ?_⟩, fun v hv => absurd hv (by simp),
          fun v hv => absurd hv (by simp)⟩
        · obtain ⟨tc, _, h1, _⟩ := copyFilesLoop_grow ext srcDir force rest
            (dirInsert d e.name e.content) (c ++ [e.name]) s
          rw [h1]; simp
        · rw [copyFilesLoop_frame ext srcDir force e.name rest _ _ _ hfrest]
          exact dirLookup_insert_self d e.name e.content
      | some v =>
        cases force with
        | false =>
          rw [show copyFilesLoop ext srcDir false (e :: rest) d c s
              = copyFilesLoop ext srcDir false rest d c (s ++ [e.name]) by
            simp [copyFilesLoop, hfe, hd]]
          refine ⟨fun hnone => absurd hnone (by simp),
            fun w hw _ => ⟨?_, ?_⟩,
            fun w hw hcontra => absurd hcontra (by simp)⟩
          · obtain ⟨_, ts, _, h2⟩ := copyFilesLoop_grow ext srcDir false rest d c (s ++ [e.name])
            rw [h2]; simp
          · rw [copyFilesLoop_frame ext srcDir false e.name rest d c _ hfrest, hd]
            exact hw
        | true =>
          rw [show copyFilesLoop ext srcDir true (e :: rest) d c s
              = copyFilesLoop ext srcDir true rest (dirInsert d e.name e.content)
                  (c ++ [e.name ++ " (updated)"]) s by
            simp [copyFilesLoop, hfe, hfok, hd]]
          refine ⟨fun hnone => absurd hnone (by simp),
            fun w hw hcontra => absurd hcontra (by simp),
            fun w hw _ => ⟨?_, ?_⟩⟩
          · obtain ⟨tc, _, h1, _⟩ := copyFilesLoop_grow ext srcDir true rest
              (dirInsert d e.name e.content) (c ++ [e.name ++ " (updated)"]) s
            rw [h1]; simp
          · rw [copyFilesLoop_frame ext srcDir true e.name rest _ _ _ hfrest]
            exact dirLookup_insert_self d e.name e.content
    · -- the entry under scrutiny comes later in the listing
      have hne : f.name ≠ e.name := by
        intro hEq
        exact hfnotin (hEq ▸ List.mem_map_of_mem SrcEntry.name he')
      by_cases hfe : (f.ext == some ext) = true
      · by_cases hcond : ((dirLookup d f.name).isSome && !force) = true
        · rw [show copyFilesLoop ext srcDir force (f :: rest) d c s
              = copyFilesLoop ext srcDir force rest d c (s ++ [f.name]) by
            simp [copyFilesLoop, hfe, hcond]]
          exact ih d c (s ++ [f.name]) hnd' hok' e he' hext
        · rw [show copyFilesLoop ext srcDir force (f :: rest) d c s
              = copyFilesLoop ext srcDir force rest (dirInsert d f.name f.content)
                  (c ++ [if (dirLookup d f.name).isSome then f.name ++ " (updated)" else f.name]) s by
            simp [copyFilesLoop, hfe, hcond, hfok]]
          have := ih (dirInsert d f.name f.content)
            (c ++ [if (dirLookup d f.name).isSome then f.name ++ " (updated)" else f.name]) s
            hnd' hok' e he' hext
          rwa [dirLookup_insert_ne d f.name e.name f.content hne] at this
      · rw [show copyFilesLoop ext srcDir force (f :: rest) d c s
            = copyFilesLoop ext srcDir force rest d c s by
          simp [copyFilesLoop, hfe]]
        exact ih d c s hnd' hok' e he' hext

/-! ### Record-counting lemmas for the uniqueness invariant -/

/-- The annotation appended to a file name recorded for an overwrite. -/
def updStr : String := " (updated)"

/-- Whether a file name already ends with the overwrite annotation.  File
names selected by the extension filters end in a dot followed by the
extension, so they never do. -/
def hasUpdSuffix (n : String) : Bool := listEndsWith updStr.data n.data

/-- How often the file name `n` is recorded across a copied and a skipped
list: as a skip record, as a fresh-copy record, or as an overwrite
record. -/
def recCount (n : String) (copied skipped : List String) : Nat :=
  skipped.count n + copied.count n + copied.count (n ++ updStr)

theorem listStarts_append_self : ∀ (p t : List Char), listStarts p (p ++ t) = true := by
  intro p
  induction p with
  | nil => intro t; simp [listStarts]
  | cons a p ih => intro t; simp [listStarts, ih]

theorem hasUpdSuffix_append (m : String) : hasUpdSuffix (m ++ updStr) = true := by
  unfold hasUpdSuffix listEndsWith
  rw [String.data_append, List.reverse_append]
  exact listStarts_append_self updStr.data.reverse m.data.reverse

theorem noUpd_ne_append {n : String} (h : hasUpdSuffix n = false) (m : String) :
    n ≠ m ++ updStr := by
  intro hEq
  rw [hEq, hasUpdSuffix_append] at h
  exact Bool.true_eq_false.mp h

theorem append_updStr_inj {m n : String} (h : m ++ updStr = n ++ updStr) : m = n := by
  apply String.ext
  have := congrArg String.data h
  rw [String.data_append, String.data_append] at this
  exact List.append_cancel_right this

theorem count_append_singleton (l : List String) (a b : String) :
    (l ++ [a]).count b = l.count b + (if a = b then 1 else 0) := by
  rw [List.count_append]
  by_cases h : a = b <;> simp [h, List.count_singleton']

theorem recCount_copyFilesLoop (ext srcDir : String) (force : Bool) (n : String)
    (hn : hasUpdSuffix n = false) :
    ∀ (entries : List SrcEntry) (d : Dir) (c s : List String),
      (∀ e ∈ entries, hasUpdSuffix e.name = false) →
      recCount n (copyFilesLoop ext srcDir force entries d c s).copied
          (copyFilesLoop ext srcDir force entries d c s).skipped
        ≤ recCount n c s + (entries.map SrcEntry.name).count n := by
  intro entries
  induction entries with
  | nil => intro d c s _; simp [copyFilesLoop]
  | cons e rest ih =>
    intro d c s hplain
    have hrest : ∀ g ∈ rest, hasUpdSuffix g.name = false :=
      fun g hg => hplain g (List.mem_cons_of_mem e hg)
    have heplain : hasUpdSuffix e.name = false := hplain e (List.mem_cons_self e rest)
    have hcnt : ((e :: rest).map SrcEntry.name).count n
        = (rest.map SrcEntry.name).count n + (if e.name = n then 1 else 0) := by
      by_cases h : e.name = n <;> simp [List.count_cons, h]
    by_cases hfe : (e.ext == some ext) = true
    · by_cases hcond : ((dirLookup d e.name).isSome && !force) = true
      · rw [show copyFilesLoop ext srcDir force (e :: rest) d c s
            = copyFilesLoop ext srcDir force rest d c (s ++ [e.name]) by
          simp [copyFilesLoop, hfe, hcond]]
        have hih := ih d c (s ++ [e.name]) hrest
        have hrc : recCount n c (s ++ [e.name])
            = recCount n c s + (if e.name = n then 1 else 0) := by
          unfold recCount
          rw [count_append_singleton]
          omega
        rw [hrc] at hih
        rw [hcnt]
        omega
      · by_cases hok : e.copyOk = true
        · rw [show copyFilesLoop ext srcDir force (e :: rest) d c s
              = copyFilesLoop ext srcDir force rest (dirInsert d e.name e.content)
                  (c ++ [if (dirLookup d e.name).isSome then e.name ++ " (updated)" else e.name]) s by
            simp [copyFilesLoop, hfe, hcond, hok]]
          have hih := ih (dirInsert d e.name e.content)
            (c ++ [if (dirLookup d e.name).isSome then e.name ++ " (updated)" else e.name]) s hrest
          have hrc : recCount n
              (c ++ [if (dirLookup d e.name).isSome then e.name ++ " (updated)" else e.name]) s
              ≤ recCount n c s + (if e.name = n then 1 else 0) := by
            unfold recCount
            rw [count_append_singleton, count_append_singleton]
            have hupd : (e.name ++ " (updated)") = e.name ++ updStr := rfl
            by_cases hmem : (dirLookup d e.name).isSome = true
            · simp only [hmem, if_true]
              have h1 : (e.name ++ " (updated)" = n) = False := by
                simp only [eq_iff_iff, iff_false]
                intro hEq
                exact noUpd_ne_append hn e.name (hupd ▸ hEq.symm)
              have h2 : ((e.name ++ " (updated)") = n ++ updStr) ↔ (e.name = n) := by
                rw [hupd]
                exact ⟨fun h => append_updStr_inj h, fun h => by rw [h]⟩
              by_cases hen : e.name = n
              · simp only [h2.symm] at hen ⊢
                simp only [h1, if_false]
                rw [if_pos hen]
                omega
              · have h2' : ((e.name ++ " (updated)") = n ++ updStr) = False := by
                  simp only [eq_iff_iff, iff_false]
                  exact fun h => hen (h2.mp h)
                simp only [h1, h2', if_false]
                omega
            · simp only [Bool.not_eq_true] at hmem
              simp only [hmem, Bool.false_eq_true, if_false]
              have h2 : (e.name = n ++ updStr) = False := by
                simp only [eq_iff_iff, iff_false]
                exact fun h => noUpd_ne_append heplain n (by rw [h])
              simp only [h2, if_false]
              by_cases hen : e.name = n
              · omega
              · omega
          rw [hcnt]
          omega
        · rw [show copyFilesLoop ext srcDir force (e :: rest) d c s
              = ⟨d, c, s, some ("Failed to copy: " ++ srcDir ++ "/" ++ e.name)⟩ by
            simp [copyFilesLoop, hfe, hcond, hok]]
          simp [recCount]
    · rw [show copyFilesLoop ext srcDir force (e :: rest) d c s
          = copyFilesLoop ext srcDir force rest d c s by
        simp [copyFilesLoop, hfe]]
      have hih := ih d c s hrest
      rw [hcnt]
      omega

theorem recCount_copyScriptsLoop (srcEntries : List SrcEntry) (srcDir : String)
    (force : Bool) (n : String) (hn : hasUpdSuffix n = false) :
    ∀ (names : List String) (d : Dir) (c s : List String),
      (∀ m ∈ names, hasUpdSuffix m = false) →
      recCount n (copyScriptsLoop srcEntries srcDir force names d c s).copied
          (copyScriptsLoop srcEntries srcDir force names d c s).skipped
        ≤ recCount n c s + names.count n := by
  intro names
  induction names with
  | nil => intro d c s _; simp [copyScriptsLoop]
  | cons m ns ih =>
    intro d c s hplain
    have hrest : ∀ g ∈ ns, hasUpdSuffix g = false :=
      fun g hg => hplain g (List.mem_cons_of_mem m hg)
    have hmplain : hasUpdSuffix m = false := hplain m (List.mem_cons_self m ns)
    have hcnt : (m :: ns).count n = ns.count n + (if m = n then 1 else 0) := by
      by_cases h : m = n <;> simp [List.count_cons, h]
    cases hsrc : srcLookup srcEntries m with
    | none =>
      rw [show copyScriptsLoop srcEntries srcDir force (m :: ns) d c s
          = copyScriptsLoop srcEntries srcDir force ns d c s by
        simp [copyScriptsLoop, hsrc]]
      have hih := ih d c s hrest
      rw [hcnt]
      omega
    | some e =>
      by_cases hcond : ((dirLookup d m).isSome && !force) = true
      · rw [show copyScriptsLoop srcEntries srcDir force (m :: ns) d c s
            = copyScriptsLoop srcEntries srcDir force ns d c (s ++ [m]) by
          simp [copyScriptsLoop, hsrc, hcond]]
        have hih := ih d c (s ++ [m]) hrest
        have hrc : recCount n c (s ++ [m]) = recCount n c s + (if m = n then 1 else 0) := by
          unfold recCount
          rw [count_append_singleton]
          omega
        rw [hrc] at hih
        rw [hcnt]
        omega
      · by_cases hok : e.copyOk = true
        · rw [show copyScriptsLoop srcEntries srcDir force (m :: ns) d c s
              = copyScriptsLoop srcEntries srcDir force ns (dirInsert d m e.content)
                  (c ++ [if (dirLookup d m).isSome then m ++ " (updated)" else m]) s by
            simp [copyScriptsLoop, hsrc, hcond, hok]]
          have hih := ih (dirInsert d m e.content)
            (c ++ [if (dirLookup d m).isSome then m ++ " (updated)" else m]) s hrest
          have hrc : recCount n
              (c ++ [if (dirLookup d m).isSome then m ++ " (updated)" else m]) s
              ≤ recCount n c s + (if m = n then 1 else 0) := by
            unfold recCount
            rw [count_append_singleton, count_append_singleton]
            have hupd : (m ++ " (updated)") = m ++ updStr := rfl
            by_cases hmem : (dirLookup d m).isSome = true
            · simp only [hmem, if_true]
              have h1 : (m ++ " (updated)" = n) = False := by
                simp only [eq_iff_iff, iff_false]
                intro hEq
                exact noUpd_ne_append hn m (hupd ▸ hEq.symm)
              have h2 : ((m ++ " (updated)") = n ++ updStr) ↔ (m = n) := by
                rw [hupd]
                exact ⟨fun h => append_updStr_inj h, fun h => by rw [h]⟩
              by_cases hen : m = n
              · simp only [h2.symm] at hen ⊢
                simp only [h1, if_false]
                rw [if_pos hen]
                omega
              · have h2' : ((m ++ " (updated)") = n ++ updStr) = False := by
                  simp only [eq_iff_iff, iff_false]
                  exact fun h => hen (h2.mp h)
                simp only [h1, h2', if_false]
                omega
            · simp only [Bool.not_eq_true] at hmem
              simp only [hmem, Bool.false_eq_true, if_false]
              have h2 : (m = n ++ updStr) = False := by
                simp only [eq_iff_iff, iff_false]
                exact fun h => noUpd_ne_append hmplain n (by rw [h])
              simp only [h2, if_false]
              by_cases hen : m = n
              · omega
              · omega
          rw [hcnt]
          omega
        · rw [show copyScriptsLoop srcEntries srcDir force (m :: ns) d c s
              = ⟨d, c, s, some ("Failed to copy: " ++ srcDir ++ "/" ++ m)⟩ by
            simp [copyScriptsLoop, hsrc, hcond, hok]]
          simp [recCount]

/-! ### Hook-state frame lemmas for the pipeline steps -/

theorem stepRules_hook_frame (fs : SrcFs) (src : SourceInfo) (force : Bool)
    (p : RepoState × InitReport) :
    (stepRules fs src force p).1.preCommit = p.1.preCommit ∧
    (stepRules fs src force p).1.preCommitExec = p.1.preCommitExec ∧
    (stepRules fs src force p).1.gitHooksDir = p.1.gitHooksDir ∧
    (stepRules fs src force p).2.hook_action = p.2.hook_action :=
  ⟨rfl, rfl, rfl, rfl⟩

theorem stepWorkflow_hook_frame (pn : String) (p : RepoState × InitReport) :
    (stepWorkflow pn p).1.preCommit = p.1.preCommit ∧
    (stepWorkflow pn p).1.preCommitExec = p.1.preCommitExec ∧
    (stepWorkflow pn p).1.gitHooksDir = p.1.gitHooksDir ∧
    (stepWorkflow pn p).2.hook_action = p.2.hook_action :=
  ⟨rfl, rfl, rfl, rfl⟩

theorem stepTemplates_hook_frame (fs : SrcFs) (src : SourceInfo) (force : Bool)
    (p : RepoState × InitReport) :
    (stepTemplates fs src force p).1.preCommit = p.1.preCommit ∧
    (stepTemplates fs src force p).1.preCommitExec = p.1.preCommitExec ∧
    (stepTemplates fs src force p).1.gitHooksDir = p.1.gitHooksDir ∧
    (stepTemplates fs src force p).2.hook_action = p.2.hook_action := by
  cases h : src.templates_path <;> simp [stepTemplates, h]

theorem stepScripts_hook_frame (fs : SrcFs) (src : SourceInfo) (force : Bool)
    (p : RepoState × InitReport) :
    (stepScripts fs src force p).1.preCommit = p.1.preCommit ∧
    (stepScripts fs src force p).1.preCommitExec = p.1.preCommitExec ∧
    (stepScripts fs src force p).1.gitHooksDir = p.1.gitHooksDir ∧
    (stepScripts fs src force p).2.hook_action = p.2.hook_action := by
  cases h : src.scripts_path <;> simp [stepScripts, h]

theorem stepGitignore_hook_frame (p : RepoState × InitReport) :
    (stepGitignore p).1.preCommit = p.1.preCommit ∧
    (stepGitignore p).1.preCommitExec = p.1.preCommitExec ∧
    (stepGitignore p).1.gitHooksDir = p.1.gitHooksDir ∧
    (stepGitignore p).2.hook_action = p.2.hook_action :=
  ⟨rfl, rfl, rfl, rfl⟩

theorem stepHooks_skipped (force copyOk chmodOk : Bool) (p : RepoState × InitReport) :
    (stepHooks force true copyOk chmodOk p).1 = p.1 ∧
    (stepHooks force true copyOk chmodOk p).2.hook_action = some "skipped" := by
  simp [stepHooks]

theorem stepAgent_hook_frame (skip_agent with_agent force : Bool) (home : String)
    (fs : SrcFs) (src : SourceInfo) (pn : String) (p : RepoState × InitReport) :
    (stepAgent skip_agent with_agent force home fs src pn p).1.preCommit = p.1.preCommit ∧
    (stepAgent skip_agent with_agent force home fs src pn p).1.preCommitExec = p.1.preCommitExec ∧
    (stepAgent skip_agent with_agent force home fs src pn p).1.gitHooksDir = p.1.gitHooksDir ∧
    (stepAgent skip_agent with_agent force home fs src pn p).2.hook_action = p.2.hook_action :=
  ⟨rfl, rfl, rfl, rfl⟩

theorem stepValidate_hook_frame (pn : String) (p : RepoState × InitReport) :
    (stepValidate pn p).1.preCommit = p.1.preCommit ∧
    (stepValidate pn p).1.preCommitExec = p.1.preCommitExec ∧
    (stepValidate pn p).1.gitHooksDir = p.1.gitHooksDir ∧
    (stepValidate pn p).2.hook_action = p.2.hook_action :=
  ⟨rfl, rfl, rfl, rfl⟩

theorem initAfterSource_skip_hooks (force skip_agent with_agent : Bool)
    (home : String) (fs : SrcFs) (pn : String) (src : SourceInfo)
    (copyOk chmodOk : Bool) (st : RepoState) (r : InitReport) :
    (initAfterSource force skip_agent with_agent true home fs pn src copyOk chmodOk st r).1.preCommit
      = st.preCommit ∧
    (initAfterSource force skip_agent with_agent true home fs pn src copyOk chmodOk st r).1.preCommitExec
      = st.preCommitExec ∧
    (initAfterSource force skip_agent with_agent true home fs pn src copyOk chmodOk st r).1.gitHooksDir
      = st.gitHooksDir ∧
    (initAfterSource force skip_agent with_agent true home fs pn src copyOk chmodOk st r).2.1.hook_action
      = some "skipped" := by
  unfold initAfterSource
  set p1 := stepRules fs src force (st, r) with hp1
  set p2 := stepWorkflow pn p1 with hp2
  set p3 := stepTemplates fs src force p2 with hp3
  set p4 := stepScripts fs src force p3 with hp4
  set p5 := stepGitignore p4 with hp5
  set p6 := stepHooks force true copyOk chmodOk p5 with hp6
  set p7 := stepAgent skip_agent with_agent force home fs src pn p6 with hp7
  set p8 := stepValidate pn p7 with hp8
  obtain ⟨a1, b1, c1, _⟩ := stepRules_hook_frame fs src force (st, r)
  obtain ⟨a2, b2, c2, _⟩ := stepWorkflow_hook_frame pn p1
  obtain ⟨a3, b3, c3, _⟩ := stepTemplates_hook_frame fs src force p2
  obtain ⟨a4, b4, c4, _⟩ := stepScripts_hook_frame fs src force p3
  obtain ⟨a5, b5, c5, _⟩ := stepGitignore_hook_frame p4
  obtain ⟨a6, d6⟩ := stepHooks_skipped force copyOk chmodOk p5
  obtain ⟨a7, b7, c7, d7⟩ := stepAgent_hook_frame skip_agent with_agent force home fs src pn p6
  obtain ⟨a8, b8, c8, d8⟩ := stepValidate_hook_frame pn p7
  refine ⟨?_, ?_, ?_, ?_⟩
  · rw [a8, a7, a6, a5, a4, a3, a2, a1]
  · rw [b8, b7, a6, b5, b4, b3, b2, b1]
  · rw [c8, c7, a6, c5, c4, c3, c2, c1]
  · rw [d8, d7, d6]

/-! ### Concrete fixtures for witnesses and counterexamples -/

/-- An initially empty working repository. -/
def st0 : RepoState := ⟨none, [], none, none, none, false, none, false, none⟩

/-- An empty source-side filesystem: no configuration target, no
`~/.cursor/` directory. -/
def fs0 : SrcFs := ⟨[], [], []⟩

/-- A source-side filesystem with only a per-user cursor rules directory
containing one rule file. -/
def fsCursor : SrcFs :=
  ⟨["h/.cursor/rules"], [("h/.cursor/rules", [⟨"a.mdc", some "mdc", "rule a", true⟩])], []⟩

/-! ### Claims -/

/-- Claim C5: if source discovery returns no usable source, the init run
aborts with a failing status and the repository state after the run is
exactly the state before it — no filesystem mutation happens. -/
theorem C5_no_source_aborts_before_mutation (force skip_agent with_agent skip_hooks : Bool)
    (home : String) (cfg : FlowmatesConfig) (fs : SrcFs) (pn : String)
    (copyOk chmodOk : Bool) (st : RepoState)
    (h : (discover_source_location home cfg fs emptyReport).2 = none) :
    (init_command force skip_agent with_agent skip_hooks home cfg fs pn copyOk chmodOk st).1 = st ∧
    (init_command force skip_agent with_agent skip_hooks home cfg fs pn copyOk chmodOk st).2.2 = false := by
  unfold init_command
  simp only [h]
  exact ⟨trivial, trivial⟩

/-- Witness for C5 at a concrete world: no configuration, no cursor
directory, an arbitrary starting repository state. -/
theorem C5_no_source_aborts_before_mutation_witness :
    (init_command false false false false "h" .absent fs0 "p" true true st0).1 = st0 ∧
    (init_command false false false false "h" .absent fs0 "p" true true st0).2.2 = false :=
  C5_no_source_aborts_before_mutation false false false false "h" .absent fs0 "p" true true st0
    (by decide)

/-- Claim C6 counterexample: with the primary configuration file present
but unparseable, source discovery falls through without appending any
warning, contradicting the claim that every primary-source failure mode
appends a non-fatal warning. -/
theorem C6_counterexample :
    (discover_source_location "h" .unparseable fs0 emptyReport).1.warnings = [] ∧
    (discover_source_location "h" .unparseable fs0 emptyReport).2 = none := by
  constructor <;> rfl

/-- Claim C6 (amended): an absent configuration and a configured path that
fails validation append a non-fatal warning before falling through to the
fallback source; an unreadable, unparseable or missing-field
configuration falls through to the fallback silently, with no warning;
no primary-source failure is raised as a fatal error at this stage. -/
theorem C6_amended (home : String) (fs : SrcFs) (r : InitReport) :
    (discover_source_location home .unreadable fs r = cursorFallback home fs r) ∧
    (discover_source_location home .unparseable fs r = cursorFallback home fs r) ∧
    (discover_source_location home .noRepoPath fs r = cursorFallback home fs r) ∧
    (discover_source_location home .absent fs r =
      cursorFallback home fs
        { r with warnings := r.warnings ++
            ["Flowmates repository not configured. Using ~/.cursor/ as fallback."] }) ∧
    (∀ p, validate_flowmates_repo fs p = false →
      discover_source_location home (.repoPath p) fs r =
        cursorFallback home fs
          { r with warnings := r.warnings ++
              ["Flowmates repository path invalid: " ++ p ++ ". Using ~/.cursor/ as fallback."] }) := by
  refine ⟨rfl, rfl, rfl, rfl, ?_⟩
  intro p h
  simp [discover_source_location, h]

/-- Witness for C6 (amended) at a concrete invalid repo path. -/
theorem C6_amended_witness :
    discover_source_location "h" (.repoPath "nowhere") fs0 emptyReport =
      cursorFallback "h" fs0
        { emptyReport with warnings := emptyReport.warnings ++
            ["Flowmates repository path invalid: " ++ "nowhere" ++ ". Using ~/.cursor/ as fallback."] } :=
  (C6_amended "h" fs0 emptyReport).2.2.2.2 "nowhere" (by decide)

/-- Claim C7 counterexample: a run in which discovery finds no source
exits with a failing status although the report holds no hard error, so
a non-zero exit status does not imply an accumulated hard error. -/
theorem C7_counterexample :
    (init_command false false false false "h" .absent fs0 "p" true true st0).2.2 = false ∧
    (init_command false false false false "h" .absent fs0 "p" true true st0).2.1.errors = [] := by
  constructor <;> rfl

/-- Claim C7 (amended): once a source has been discovered, the run
succeeds exactly when the report accumulated no hard error, so warnings
alone never change a successful exit status; but a run that discovers no
source exits non-zero with an empty error list (as do the unmodelled
fatal early returns for directory-creation and gitignore write
failures). -/
theorem C7_amended (force skip_agent with_agent skip_hooks : Bool)
    (home : String) (cfg : FlowmatesConfig) (fs : SrcFs) (pn : String)
    (copyOk chmodOk : Bool) (st : RepoState) (src : SourceInfo)
    (h : (discover_source_location home cfg fs emptyReport).2 = some src) :
    (init_command force skip_agent with_agent skip_hooks home cfg fs pn copyOk chmodOk st).2.2
      = (init_command force skip_agent with_agent skip_hooks home cfg fs pn copyOk chmodOk st).2.1.errors.isEmpty := by
  unfold init_command
  simp only [h]
  rfl

/-- Witness for C7 (amended) on a concrete run that discovers the cursor
fallback source. -/
theorem C7_amended_witness :
    (init_command false true false true "h" .absent fsCursor "p" true true st0).2.2
      = (init_command false true false true "h" .absent fsCursor "p" true true st0).2.1.errors.isEmpty :=
  C7_amended false true false true "h" .absent fsCursor "p" true true st0
    { base_path := "h/.cursor", rules_path := "h/.cursor/rules",
      templates_path := none, scripts_path := none, is_flowmates := false }
    (by decide)

/-- Claim C3: the gitignore reconciler has exactly three outcomes —
created with header and entry when the file is absent, skipped with no
write when a line matches, added (blank line, header, entry appended)
otherwise — and a trimmed line matches iff, ignoring case, it equals the
entry, equals the entry with a trailing separator, or starts with the
entry, while blank lines and comment lines never match. -/
theorem C3_gitignore_reconciler :
    (ensure_cursor_in_gitignore none
      = (some "# Cursor agent state and cache\n.cursor/\n", "created")) ∧
    (∀ c : String, (rustLines c).any cursorLineMatch = true →
      ensure_cursor_in_gitignore (some c) = (some c, "skipped")) ∧
    (∀ c : String, (rustLines c).any cursorLineMatch = false →
      ensure_cursor_in_gitignore (some c)
        = (some (c ++ "\n# Cursor agent state and cache\n.cursor/\n"), "added")) ∧
    (∀ l : List Char, cursorLineMatch l = true ↔
      ((trimChars l).isEmpty = false ∧ listStarts "#".data (trimChars l) = false ∧
        (eqIgnoreAscii (trimChars l) ".cursor".data = true ∨
         eqIgnoreAscii (trimChars l) ".cursor/".data = true ∨
         listStarts ".cursor".data (lowerChars (trimChars l)) = true))) := by
  refine ⟨rfl, ?_, ?_, ?_⟩
  · intro c h
    simp [ensure_cursor_in_gitignore, h]
  · intro c h
    simp [ensure_cursor_in_gitignore, h, gitignoreAppendix]
  · intro l
    unfold cursorLineMatch
    by_cases h1 : (trimChars l).isEmpty = true
    · simp [h1]
    · by_cases h2 : listStarts "#".data (trimChars l) = true
      · simp [h1, h2]
      · simp only [Bool.not_eq_true] at h1 h2
        simp [h1, h2, or_assoc]

/-- Witness for C3: a file whose only entry line is an upper-case variant
of the entry with surrounding whitespace is recognized and skipped. -/
theorem C3_gitignore_reconciler_witness :
    ensure_cursor_in_gitignore (some "target/\n  .CURSOR/  \n")
      = (some "target/\n  .CURSOR/  \n", "skipped") :=
  C3_gitignore_reconciler.2.1 "target/\n  .CURSOR/  \n" (by decide)

/-- Claim C4: hook installation follows the decision table — missing
template means not_found, missing git hooks directory means not_git, an
existing destination without force means skipped with no write,
otherwise the template is copied (updated when the destination existed,
installed when not) and marked executable; a copy failure is appended as
a hard error (and no outcome is recorded), a chmod failure only as a
non-fatal warning. -/
theorem C4_hook_decision_table (force : Bool) (sd : Option Dir) (ghd : Bool)
    (pc : Option String) (pce : Bool) (copyOk chmodOk : Bool) :
    (dirLookup (sd.getD []) "pre-commit-hook" = none →
      install_git_hooks force sd ghd pc pce copyOk chmodOk
        = ⟨pc, pce, some "not_found", [], []⟩) ∧
    (∀ tpl, dirLookup (sd.getD []) "pre-commit-hook" = some tpl →
      (ghd = false →
        install_git_hooks force sd ghd pc pce copyOk chmodOk
          = ⟨pc, pce, some "not_git", [], []⟩) ∧
      (ghd = true → pc.isSome = true → force = false →
        install_git_hooks force sd ghd pc pce copyOk chmodOk
          = ⟨pc, pce, some "skipped", [], []⟩) ∧
      (ghd = true → (pc = none ∨ force = true) → copyOk = false →
        install_git_hooks force sd ghd pc pce copyOk chmodOk
          = ⟨pc, pce, none, ["Failed to copy git hook"], []⟩) ∧
      (ghd = true → (pc = none ∨ force = true) → copyOk = true →
        (install_git_hooks force sd ghd pc pce copyOk chmodOk).preCommit = some tpl ∧
        (install_git_hooks force sd ghd pc pce copyOk chmodOk).action
          = some (if pc.isSome then "updated" else "installed") ∧
        (install_git_hooks force sd ghd pc pce copyOk chmodOk).errs = [] ∧
        (chmodOk = true →
          (install_git_hooks force sd ghd pc pce copyOk chmodOk).preCommitExec = true ∧
          (install_git_hooks force sd ghd pc pce copyOk chmodOk).warns = []) ∧
        (chmodOk = false →
          (install_git_hooks force sd ghd pc pce copyOk chmodOk).warns
            = ["Failed to make hook executable"]))) := by
  constructor
  · intro h
    simp [install_git_hooks, h]
  · intro tpl h
    refine ⟨?_, ?_, ?_, ?_⟩
    · intro hg
      simp [install_git_hooks, h, hg]
    · intro hg hpc hf
      simp [install_git_hooks, h, hg, hpc, hf]
    · intro hg hor hc
      have hcond : (pc.isSome && !force) = false := by
        rcases hor with h0 | h0 <;> simp [h0]
      simp [install_git_hooks, h, hg, hcond, hc]
    · intro hg hor hc
      have hcond : (pc.isSome && !force) = false := by
        rcases hor with h0 | h0 <;> simp [h0]
      refine ⟨?_, ?_, ?_, fun hm => ⟨?_, ?_⟩, fun hm => ?_⟩ <;>
        simp [install_git_hooks, h, hg, hcond, hc, *]

/-- Witness for C4: fresh install row — template present, hooks directory
present, destination absent, copy and chmod succeed. -/
theorem C4_hook_decision_table_witness :
    (install_git_hooks false (some [("pre-commit-hook", "hook body")]) true none false true true).preCommit
        = some "hook body" ∧
    (install_git_hooks false (some [("pre-commit-hook", "hook body")]) true none false true true).action
        = some (if (none : Option String).isSome then "updated" else "installed") ∧
    (install_git_hooks false (some [("pre-commit-hook", "hook body")]) true none false true true).errs = [] ∧
    (true = true →
      (install_git_hooks false (some [("pre-commit-hook", "hook body")]) true none false true true).preCommitExec = true ∧
      (install_git_hooks false (some [("pre-commit-hook", "hook body")]) true none false true true).warns = []) ∧
    (true = false →
      (install_git_hooks false (some [("pre-commit-hook", "hook body")]) true none false true true).warns
        = ["Failed to make hook executable"]) :=
  ((C4_hook_decision_table false (some [("pre-commit-hook", "hook body")]) true none false true true).2
    "hook body" (by decide)).2.2.2 (by decide) (Or.inl (by decide)) (by decide)

/-- Claim C10: with the skip-hooks flag set (and a source discovered),
the hook installer is never invoked — the git hooks directory and the
destination hook file are untouched whatever their state — and the
report records the hook action as skipped, which is the same label the
installer itself records when the destination hook already exists and
force is off, so the report cannot distinguish the two situations. -/
theorem C10_skip_hooks_indistinguishable (force skip_agent with_agent : Bool)
    (home : String) (cfg : FlowmatesConfig) (fs : SrcFs) (pn : String)
    (copyOk chmodOk : Bool) (st : RepoState) (src : SourceInfo)
    (h : (discover_source_location home cfg fs emptyReport).2 = some src) :
    ((init_command force skip_agent with_agent true home cfg fs pn copyOk chmodOk st).1.preCommit
        = st.preCommit ∧
      (init_command force skip_agent with_agent true home cfg fs pn copyOk chmodOk st).1.preCommitExec
        = st.preCommitExec ∧
      (init_command force skip_agent with_agent true home cfg fs pn copyOk chmodOk st).1.gitHooksDir
        = st.gitHooksDir ∧
      (init_command force skip_agent with_agent true home cfg fs pn copyOk chmodOk st).2.1.hook_action
        = some "skipped") ∧
    (∀ (sd : Option Dir) (ghd : Bool) (pc : Option String) (pce cok mok : Bool) (tpl : String),
      dirLookup (sd.getD []) "pre-commit-hook" = some tpl → ghd = true → pc.isSome = true →
      (install_git_hooks false sd ghd pc pce cok mok).action = some "skipped") := by
  constructor
  · have hmain := initAfterSource_skip_hooks force skip_agent with_agent home fs pn src
      copyOk chmodOk st (discover_source_location home cfg fs emptyReport).1
    unfold init_command
    simp only [h]
    exact hmain
  · intro sd ghd pc pce cok mok tpl htpl hg hpc
    simp [install_git_hooks, htpl, hg, hpc]

/-- Witness for C10: concrete run over the cursor fallback with the hook
destination already present, and the concrete already-installed skip. -/
theorem C10_skip_hooks_indistinguishable_witness :
    ((init_command false true false true "h" .absent fsCursor "p" true true st0).1.preCommit
        = st0.preCommit ∧
      (init_command false true false true "h" .absent fsCursor "p" true true st0).1.preCommitExec
        = st0.preCommitExec ∧
      (init_command false true false true "h" .absent fsCursor "p" true true st0).1.gitHooksDir
        = st0.gitHooksDir ∧
      (init_command false true false true "h" .absent fsCursor "p" true true st0).2.1.hook_action
        = some "skipped") ∧
    (∀ (sd : Option Dir) (ghd : Bool) (pc : Option String) (pce cok mok : Bool) (tpl : String),
      dirLookup (sd.getD []) "pre-commit-hook" = some tpl → ghd = true → pc.isSome = true →
      (install_git_hooks false sd ghd pc pce cok mok).action = some "skipped") :=
  C10_skip_hooks_indistinguishable false true false "h" .absent fsCursor "p" true true st0
    { base_path := "h/.cursor", rules_path := "h/.cursor/rules",
      templates_path := none, scripts_path := none, is_flowmates := false }
    (by decide)

/-- Claim C2 counterexample: in a rules sync where the first matching
file A fails to copy and the second matching file B is absent at the
destination, B is not processed at all — it is neither copied nor
recorded — refuting the claim that a per-file copy failure does not
abort the remaining files of the category. -/
theorem C2_counterexample :
    ¬ ("b.mdc" ∈ (copyFilesLoop "mdc" "rules" false
          [⟨"a.mdc", some "mdc", "ca", false⟩, ⟨"b.mdc", some "mdc", "cb", true⟩]
          [] [] []).copied ∨
       "b.mdc" ∈ (copyFilesLoop "mdc" "rules" false
          [⟨"a.mdc", some "mdc", "ca", false⟩, ⟨"b.mdc", some "mdc", "cb", true⟩]
          [] [] []).skipped ∨
       (dirLookup (copyFilesLoop "mdc" "rules" false
          [⟨"a.mdc", some "mdc", "ca", false⟩, ⟨"b.mdc", some "mdc", "cb", true⟩]
          [] [] []).dest "b.mdc").isSome = true) := by
  decide

/-- Claim C2 (amended): a failure to copy one individual file surfaces as
a hard error naming that file, but it aborts the remaining files of the
category: the loop stops at the failing entry, leaving the destination
and both report lists exactly as they were at that point, so files after
the failing one are neither copied nor recorded. -/
theorem C2_amended (ext srcDir : String) (force : Bool) (e : SrcEntry)
    (rest : List SrcEntry) (d : Dir) (c s : List String)
    (hext : e.ext = some ext) (hfail : e.copyOk = false)
    (hcopy : dirLookup d e.name = none ∨ force = true) :
    copyFilesLoop ext srcDir force (e :: rest) d c s =
      ⟨d, c, s, some ("Failed to copy: " ++ srcDir ++ "/" ++ e.name)⟩ := by
  have hcond : ((dirLookup d e.name).isSome && !force) = false := by
    rcases hcopy with h0 | h0 <;> simp [h0]
  simp [copyFilesLoop, hext, hcond, hfail]

/-- Witness for C2 (amended) at the counterexample input. -/
theorem C2_amended_witness :
    copyFilesLoop "mdc" "rules" false
        [⟨"a.mdc", some "mdc", "ca", false⟩, ⟨"b.mdc", some "mdc", "cb", true⟩] [] [] [] =
      ⟨[], [], [], some ("Failed to copy: " ++ "rules" ++ "/" ++ "a.mdc")⟩ :=
  C2_amended "mdc" "rules" false ⟨"a.mdc", some "mdc", "ca", false⟩
    [⟨"b.mdc", some "mdc", "cb", true⟩] [] [] [] (by decide) (by decide) (Or.inl (by decide))

/-- Claim C1: for every file of the source listing whose extension is the
allowed one, a sync in which all copies succeed and file names are
distinct records exactly the per-file policy — absent destination: copied
and recorded under its name; present destination without force: left at
its old content and recorded as skipped; present destination with force:
overwritten with the source content and recorded with the overwrite
annotation — and the category itself reports no error.  Instantiating
the extension with mdc gives `copy_rules`, with md gives
`copy_templates`. -/
theorem C1_per_file_policy (ext srcDir : String) (force : Bool)
    (entries : List SrcEntry) (d : Dir)
    (hnd : (entries.map SrcEntry.name).Nodup)
    (hok : ∀ g ∈ entries, g.copyOk = true)
    (e : SrcEntry) (he : e ∈ entries) (hext : e.ext = some ext) :
    (copyFilesLoop ext srcDir force entries d [] []).err = none ∧
    (dirLookup d e.name = none →
      e.name ∈ (copyFilesLoop ext srcDir force entries d [] []).copied ∧
      dirLookup (copyFilesLoop ext srcDir force entries d [] []).dest e.name = some e.content) ∧
    (∀ v, dirLookup d e.name = some v → force = false →
      e.name ∈ (copyFilesLoop ext srcDir force entries d [] []).skipped ∧
      dirLookup (copyFilesLoop ext srcDir force entries d [] []).dest e.name = some v) ∧
    (∀ v, dirLookup d e.name = some v → force = true →
      (e.name ++ " (updated)") ∈ (copyFilesLoop ext srcDir force entries d [] []).copied ∧
      dirLookup (copyFilesLoop ext srcDir force entries d [] []).dest e.name = some e.content) :=
  ⟨copyFilesLoop_ok ext srcDir force entries d [] [] hok,
   copyFilesLoop_policy ext srcDir force entries d [] [] hnd hok e he hext⟩

/-- Witness for C1: a two-file listing, one destination file pre-existing,
force off; the absent file is copied. -/
theorem C1_per_file_policy_witness :
    (copyFilesLoop "mdc" "rules" false
        [⟨"a.mdc", some "mdc", "ca", true⟩, ⟨"b.mdc", some "mdc", "cb", true⟩]
        [("b.mdc", "old")] [] []).err = none ∧
    (dirLookup [("b.mdc", "old")] "a.mdc" = none →
      "a.mdc" ∈ (copyFilesLoop "mdc" "rules" false
          [⟨"a.mdc", some "mdc", "ca", true⟩, ⟨"b.mdc", some "mdc", "cb", true⟩]
          [("b.mdc", "old")] [] []).copied ∧
      dirLookup (copyFilesLoop "mdc" "rules" false
          [⟨"a.mdc", some "mdc", "ca", true⟩, ⟨"b.mdc", some "mdc", "cb", true⟩]
          [("b.mdc", "old")] [] []).dest "a.mdc" = some "ca") ∧
    (∀ v, dirLookup [("b.mdc", "old")] "a.mdc" = some v → false = false →
      "a.mdc" ∈ (copyFilesLoop "mdc" "rules" false
          [⟨"a.mdc", some "mdc", "ca", true⟩, ⟨"b.mdc", some "mdc", "cb", true⟩]
          [("b.mdc", "old")] [] []).skipped ∧
      dirLookup (copyFilesLoop "mdc" "rules" false
          [⟨"a.mdc", some "mdc", "ca", true⟩, ⟨"b.mdc", some "mdc", "cb", true⟩]
          [("b.mdc", "old")] [] []).dest "a.mdc" = some v) ∧
    (∀ v, dirLookup [("b.mdc", "old")] "a.mdc" = some v → false = true →
      ("a.mdc" ++ " (updated)") ∈ (copyFilesLoop "mdc" "rules" false
          [⟨"a.mdc", some "mdc", "ca", true⟩, ⟨"b.mdc", some "mdc", "cb", true⟩]
          [("b.mdc", "old")] [] []).copied ∧
      dirLookup (copyFilesLoop "mdc" "rules" false
          [⟨"a.mdc", some "mdc", "ca", true⟩, ⟨"b.mdc", some "mdc", "cb", true⟩]
          [("b.mdc", "old")] [] []).dest "a.mdc" = some "ca") :=
  C1_per_file_policy "mdc" "rules" false
    [⟨"a.mdc", some "mdc", "ca", true⟩, ⟨"b.mdc", some "mdc", "cb", true⟩]
    [("b.mdc", "old")] (by decide) (by decide)
    ⟨"a.mdc", some "mdc", "ca", true⟩ (by decide) (by decide)

/-- Claim C8: in any one run, a file name (one that does not itself carry
the overwrite annotation, as no name selected by the extension filters or
the script allow-list does) is recorded at most once across the copied
and skipped lists of a category — counting a fresh-copy record, an
overwrite record and a skip record — provided the source listing has
distinct such names; for scripts the fixed allow-list needs no
hypothesis. -/
theorem C8_records_unique (n : String) (hn : hasUpdSuffix n = false) :
    (∀ (ext srcDir : String) (force : Bool) (entries : List SrcEntry) (d : Dir),
      (entries.map SrcEntry.name).Nodup →
      (∀ e ∈ entries, hasUpdSuffix e.name = false) →
      recCount n (copyFilesLoop ext srcDir force entries d [] []).copied
          (copyFilesLoop ext srcDir force entries d [] []).skipped ≤ 1) ∧
    (∀ (srcEntries : List SrcEntry) (srcDir : String) (force : Bool) (d : Dir),
      recCount n (copyScriptsLoop srcEntries srcDir force scriptsAllowList d [] []).copied
          (copyScriptsLoop srcEntries srcDir force scriptsAllowList d [] []).skipped ≤ 1) := by
  constructor
  · intro ext srcDir force entries d hnd hplain
    have h := recCount_copyFilesLoop ext srcDir force n hn entries d [] [] hplain
    have hcnt : (entries.map SrcEntry.name).count n ≤ 1 :=
      List.nodup_iff_count_le_one.mp hnd n
    have h0 : recCount n [] [] = 0 := rfl
    omega
  · intro srcEntries srcDir force d
    have h := recCount_copyScriptsLoop srcEntries srcDir force n hn scriptsAllowList d [] []
      (by decide)
    have hcnt : scriptsAllowList.count n ≤ 1 :=
      List.nodup_iff_count_le_one.mp (by decide) n
    have h0 : recCount n [] [] = 0 := rfl
    omega

/-- Witness for C8 on a concrete forced overwrite run: the name is
recorded once (as an overwrite) and only once. -/
theorem C8_records_unique_witness :
    recCount "a.mdc"
        (copyFilesLoop "mdc" "rules" true [⟨"a.mdc", some "mdc", "ca", true⟩]
          [("a.mdc", "old")] [] []).copied
        (copyFilesLoop "mdc" "rules" true [⟨"a.mdc", some "mdc", "ca", true⟩]
          [("a.mdc", "old")] [] []).skipped ≤ 1 :=
  (C8_records_unique "a.mdc" (by decide)).1 "mdc" "rules" true
    [⟨"a.mdc", some "mdc", "ca", true⟩] [("a.mdc", "old")] (by decide) (by decide)

/-- Claim C9: the sync loops never delete a destination file — any file
present before is still present after, whatever the force flag — and
never modify a destination file whose name is not that of a source entry
selected by the extension filter, or, for scripts, not on the fixed
allow-list: the lookup of any such name is unchanged. -/
theorem C9_sync_never_deletes_frame :
    (∀ (ext srcDir : String) (force : Bool) (entries : List SrcEntry)
        (d : Dir) (c s : List String) (n : String),
      (∀ e ∈ entries, e.ext = some ext → e.name ≠ n) →
      dirLookup (copyFilesLoop ext srcDir force entries d c s).dest n = dirLookup d n) ∧
    (∀ (ext srcDir : String) (force : Bool) (entries : List SrcEntry)
        (d : Dir) (c s : List String) (n : String),
      (dirLookup d n).isSome = true →
      (dirLookup (copyFilesLoop ext srcDir force entries d c s).dest n).isSome = true) ∧
    (∀ (srcEntries : List SrcEntry) (srcDir : String) (force : Bool)
        (d : Dir) (c s : List String) (n : String),
      n ∉ scriptsAllowList →
      dirLookup (copyScriptsLoop srcEntries srcDir force scriptsAllowList d c s).dest n
        = dirLookup d n) ∧
    (∀ (srcEntries : List SrcEntry) (srcDir : String) (force : Bool)
        (names : List String) (d : Dir) (c s : List String) (n : String),
      (dirLookup d n).isSome = true →
      (dirLookup (copyScriptsLoop srcEntries srcDir force names d c s).dest n).isSome = true) :=
  ⟨fun ext srcDir force entries d c s n h =>
      copyFilesLoop_frame ext srcDir force n entries d c s h,
   fun ext srcDir force entries d c s n h =>
      copyFilesLoop_keeps ext srcDir force n entries d c s h,
   fun srcEntries srcDir force d c s n h =>
      copyScriptsLoop_frame srcEntries srcDir force n scriptsAllowList d c s h,
   fun srcEntries srcDir force names d c s n h =>
      copyScriptsLoop_keeps srcEntries srcDir force n names d c s h⟩

/-- Witness for C9: a destination file with a non-matching name keeps its
content through a forced rules sync. -/
theorem C9_sync_never_deletes_frame_witness :
    dirLookup (copyFilesLoop "mdc" "rules" true
        [⟨"a.mdc", some "mdc", "ca", true⟩, ⟨"notes.txt", some "txt", "x", true⟩]
        [("keep.me", "payload")] [] []).dest "keep.me" = dirLookup [("keep.me", "payload")] "keep.me" :=
  C9_sync_never_deletes_frame.1 "mdc" "rules" true
    [⟨"a.mdc", some "mdc", "ca", true⟩, ⟨"notes.txt", some "txt", "x", true⟩]
    [("keep.me", "payload")] [] [] "keep.me" (by decide)
